import Mathlib

/-!
Shallow embedding of the event-to-aggregate consistency subsystem of the
habit-tracking backend (`src/app.py`): the `habit_logs` event table, the
`daily_agg` rollup table, the `log_event` and `undo_last_event` operations,
the `get_habit_status_today` query, the streak calculators and the 30-day
completion rate of `analytics_summary`.

Modelling choices:
* Timestamps are seconds since the epoch (`Nat`).  The source stores
  ISO-8601 UTC strings whose lexicographic order coincides with
  chronological order, and compares them with `>=` and `ORDER BY ... DESC`;
  numeric order is the faithful image of that.
* The UTC calendar day of a timestamp (`timestamp.split("T")[0]` /
  `date(timestamp)` / `LIKE day + "%"` in the source) is `ts / 86400`,
  cast to `Int` so that day arithmetic (`today - timedelta(days=k)`)
  never truncates.
* A table is a list of rows in rowid (insertion) order.  The SQL query
  `ORDER BY timestamp DESC LIMIT 1` over such a table (no timestamp
  index; SQLite full scan in rowid order followed by a stable sort)
  returns the first row, in insertion order, holding the maximal
  timestamp; `latestIn` implements exactly that selection.
* SQLite `INTEGER` counters are `Int`, so that the zero-floor clamp in
  `undo_last_event` is a genuine operation, not a `Nat` artifact.
* Python's `round(x, 1)` (round-half-to-even) is modelled exactly on `ℚ`.
-/

namespace HabitVeritas

/-- UTC calendar day of an epoch-seconds timestamp: the model of
`timestamp.split("T")[0]` / `date(timestamp)` in the source. -/
def day_of (ts : Nat) : Int := ((ts / 86400 : Nat) : Int)

/-- A row of the `habit_logs` table (the fields the core logic reads). -/
structure Event where
  id : Nat
  habit_id : Nat
  event_type : String
  timestamp : Nat
  deriving DecidableEq, Repr

/-- A row of the `daily_agg` table. -/
structure Bucket where
  habit_id : Nat
  day : Int
  completions : Int
  skips : Int
  deriving DecidableEq, Repr

/-- The persistent state: both tables plus the AUTOINCREMENT counter of
`habit_logs`.  Rows are listed in rowid (insertion) order. -/
structure DB where
  habit_logs : List Event
  daily_agg : List Bucket
  next_id : Nat
  deriving DecidableEq, Repr

/-- A freshly created database: both tables empty. -/
def emptyDB : DB := ⟨[], [], 1⟩

/-- Row predicate of `WHERE habit_id = ? AND day = ?` on `daily_agg`. -/
def keyMatch (h : Nat) (d : Int) (b : Bucket) : Bool :=
  b.habit_id == h && b.day == d

/-- The (unique, per the `UNIQUE(habit_id, day)` constraint) `daily_agg`
row for a habit and day, if present. -/
def bucketFor (db : DB) (h : Nat) (d : Int) : Option Bucket :=
  db.daily_agg.find? (keyMatch h d)

/-- The `completions` counter for a habit and day (0 when the bucket row
is absent, matching an aggregate read over no rows). -/
def getCompletions (db : DB) (h : Nat) (d : Int) : Int :=
  ((bucketFor db h d).map Bucket.completions).getD 0

/-- The `skips` counter for a habit and day (0 when the bucket row is
absent). -/
def getSkips (db : DB) (h : Nat) (d : Int) : Int :=
  ((bucketFor db h d).map Bucket.skips).getD 0

/-- `INSERT OR IGNORE INTO daily_agg (habit_id, day, completions, skips)
VALUES (?,?,0,0)`: appends a zero row unless one with the same key
exists. -/
def ensureBucket (agg : List Bucket) (h : Nat) (d : Int) : List Bucket :=
  if agg.any (keyMatch h d) then agg else agg ++ [⟨h, d, 0, 0⟩]

/-- The two conditional `UPDATE daily_agg SET ... + 1` statements of
`log_event`: `complete` bumps `completions`, `skip` bumps `skips`, any
other event type touches nothing. -/
def bumpUp (agg : List Bucket) (h : Nat) (d : Int) (ty : String) : List Bucket :=
  if ty = "complete" then
    agg.map (fun b => if keyMatch h d b then { b with completions := b.completions + 1 } else b)
  else if ty = "skip" then
    agg.map (fun b => if keyMatch h d b then { b with skips := b.skips + 1 } else b)
  else agg

/-- `log_event` (`POST /events`), DB effect for an accepted request:
insert the event row with a fresh id and the server timestamp `now`,
create the day's bucket if absent, and apply the matching `+1`.
Returns the new state and the persisted event. -/
def log_event (db : DB) (habit_id : Nat) (event_type : String) (now : Nat) : DB × Event :=
  let e : Event := ⟨db.next_id, habit_id, event_type, now⟩
  let d := day_of now
  let agg := bumpUp (ensureBucket db.daily_agg habit_id d) habit_id d event_type
  (⟨db.habit_logs ++ [e], agg, db.next_id + 1⟩, e)

/-- `SELECT ... ORDER BY timestamp DESC LIMIT 1` over rows listed in
rowid order: the first row, in insertion order, with the maximal
timestamp (SQLite scans in rowid order and sorts stably; ties keep scan
order). -/
def latestIn : List Event → Option Event
  | [] => none
  | e :: rest =>
    match latestIn rest with
    | none => some e
    | some b => if e.timestamp < b.timestamp then some b else some e

/-- The zero-floor clamp `CASE WHEN c > 0 THEN c - 1 ELSE 0 END`. -/
def clampDec (n : Int) : Int := if 0 < n then n - 1 else 0

/-- The two conditional clamped `UPDATE daily_agg SET ...` statements of
`undo_last_event`. -/
def bumpDown (agg : List Bucket) (h : Nat) (d : Int) (ty : String) : List Bucket :=
  if ty = "complete" then
    agg.map (fun b => if keyMatch h d b then { b with completions := clampDec b.completions } else b)
  else if ty = "skip" then
    agg.map (fun b => if keyMatch h d b then { b with skips := clampDec b.skips } else b)
  else agg

/-- The window filter of `undo_last_event`: events of the habit whose
timestamp is at least `now - window_seconds` (`cutoff`). -/
def undoCandidates (db : DB) (habit_id : Nat) (window_seconds : Nat) (now : Nat) : List Event :=
  db.habit_logs.filter (fun e => e.habit_id == habit_id && now - window_seconds ≤ e.timestamp)

/-- `undo_last_event` (`POST /events/undo`): select the most recent event
of the habit inside the window; if none, leave the state untouched and
report the empty result; otherwise delete exactly that row by id and
apply the clamped decrement to the bucket of the event's day.  Returns
the new state and the reversed event (the row the source fetches and
deletes; the HTTP layer reports only `"undone"`). -/
def undo_last_event (db : DB) (habit_id : Nat) (window_seconds : Nat) (now : Nat) :
    DB × Option Event :=
  match latestIn (undoCandidates db habit_id window_seconds now) with
  | none => (db, none)
  | some e =>
    let d := day_of e.timestamp
    (⟨db.habit_logs.filter (fun x => !(x.id == e.id)),
      bumpDown db.daily_agg habit_id d e.event_type,
      db.next_id⟩, some e)

/-- `get_habit_status_today`, generalised over the reference day: the
event type of the latest event of the habit on that day, `"none"` when
the habit has no event that day. -/
def latest_status (db : DB) (habit_id : Nat) (today : Int) : String :=
  match latestIn (db.habit_logs.filter
      (fun e => e.habit_id == habit_id && day_of e.timestamp == today)) with
  | none => "none"
  | some e => e.event_type

/-- One call of the write API: `record` = `log_event`, `undo` =
`undo_last_event`, each at its own call time. -/
inductive Op where
  | record (habit_id : Nat) (event_type : String) (now : Nat)
  | undo (habit_id : Nat) (window_seconds : Nat) (now : Nat)
  deriving DecidableEq, Repr

/-- State transition of one API call. -/
def applyOp (db : DB) : Op → DB
  | .record h ty now => (log_event db h ty now).1
  | .undo h w now => (undo_last_event db h w now).1

/-- Run a sequence of API calls against the fresh database. -/
def runOps (ops : List Op) : DB := ops.foldl applyOp emptyDB

/-- Number of (non-deleted) events of the habit on the day with the given
event type. -/
def eventCount (db : DB) (h : Nat) (d : Int) (ty : String) : Nat :=
  (db.habit_logs.filter
    (fun e => e.habit_id == h && day_of e.timestamp == d && e.event_type == ty)).length

/-- One membership-guarded walk shared by both streak loops of
`analytics_summary`: starting at `c`, count how many times in a row the
current day is in `s`, moving by `step` (−1 for the backward walk of
`calculate_current_streak`, +1 for the forward walk of
`longest_consecutive`).  The fuel argument is a bound on the iteration
count; `s.length + 1` always suffices, since a walk visiting more than
`s.length` distinct days would need more distinct members than `s` has. -/
def walkGo (s : List Int) (step : Int) : Nat → Int → Nat
  | 0, _ => 0
  | f + 1, c => if c ∈ s then walkGo s step f (c + step) + 1 else 0

/-- `calculate_current_streak` from `analytics_summary`: 0 on the empty
list, else walk backward from `today` while each day is present. -/
def calculate_current_streak (date_list : List Int) (today : Int) : Nat :=
  if date_list = [] then 0 else walkGo date_list (-1) (date_list.length + 1) today

/-- The inner loop of `longest_consecutive`: the run length starting at
`d` (1 for `d` itself, plus the forward walk from `d + 1`). -/
def runLen (s : List Int) (d : Int) : Nat :=
  walkGo s 1 (s.length + 1) (d + 1) + 1

/-- `longest_consecutive` from `analytics_summary`: 0 on the empty list,
else the maximum run length over all starting days in the list. -/
def longest_consecutive (date_list : List Int) : Nat :=
  if date_list = [] then 0
  else date_list.foldl (fun longest d => max longest (runLen date_list d)) 0

/-- Python's `round` to an integer on an exact rational: round half to
even. -/
def qRoundHalfEven (x : ℚ) : ℤ :=
  let f := x.num.fdiv (x.den : ℤ)
  let r2 := 2 * (x.num - f * (x.den : ℤ))
  if r2 < (x.den : ℤ) then f
  else if (x.den : ℤ) < r2 then f + 1
  else if f % 2 = 0 then f else f + 1

/-- Python's `round(x, 1)`. -/
def round1 (x : ℚ) : ℚ := (qRoundHalfEven (10 * x) : ℚ) / 10

/-- The `completion_rate_30d` computation of `analytics_summary`: count
`complete` and `skip` events with `date(timestamp) >= today - 29`, and
return `round(completes / total * 100, 1)` when any exist, else 0. -/
def completion_rate_30d (db : DB) (today : Int) : ℚ :=
  let completes := (db.habit_logs.filter
    (fun e => e.event_type == "complete" && today - 29 ≤ day_of e.timestamp)).length
  let skips := (db.habit_logs.filter
    (fun e => e.event_type == "skip" && today - 29 ≤ day_of e.timestamp)).length
  let total := completes + skips
  if 0 < total then round1 ((completes : ℚ) / (total : ℚ) * 100) else 0

/-- Structural well-formedness guaranteed by AUTOINCREMENT: event ids
strictly increase in insertion order and stay below the id counter. -/
def WFids (db : DB) : Prop :=
  db.habit_logs.Pairwise (fun a b => a.id < b.id)
    ∧ ∀ e ∈ db.habit_logs, e.id < db.next_id

/-- The central invariant: each (habit, UTC day) rollup counter equals
the number of surviving events of the matching type. -/
def Consistent (db : DB) : Prop :=
  ∀ (h : Nat) (d : Int),
    getCompletions db h d = (eventCount db h d "complete" : Int)
    ∧ getSkips db h d = (eventCount db h d "skip" : Int)

/-! ### Lemmas about the guarded walk shared by the two streak loops -/

theorem walkGo_le (s : List Int) (step : Int) :
    ∀ (f : Nat) (c : Int), walkGo s step f c ≤ f := by
  intro f
  induction f with
  | zero => intro c; simp [walkGo]
  | succ f ih =>
    intro c
    by_cases h : c ∈ s
    · simp only [walkGo, if_pos h]
      exact Nat.succ_le_succ (ih (c + step))
    · simp [walkGo, h]

theorem walkGo_mem (s : List Int) (step : Int) :
    ∀ (f : Nat) (c : Int) (k : Nat), k < walkGo s step f c → c + (k : Int) * step ∈ s := by
  intro f
  induction f with
  | zero => intro c k hk; simp [walkGo] at hk
  | succ f ih =>
    intro c k hk
    by_cases h : c ∈ s
    · rw [show walkGo s step (f + 1) c = walkGo s step f (c + step) + 1 by
        simp [walkGo, h]] at hk
      cases k with
      | zero => simpa using h
      | succ k =>
        have hmem := ih (c + step) k (by omega)
        have heq : c + ((k : Nat) + 1 : Int) * step = (c + step) + (k : Int) * step := by ring
        rw [show ((k + 1 : Nat) : Int) = ((k : Nat) + 1 : Int) by push_cast; ring, heq]
        exact hmem
    · simp [walkGo, h] at hk

theorem walkGo_not_mem (s : List Int) (step : Int) :
    ∀ (f : Nat) (c : Int), walkGo s step f c < f →
      c + (walkGo s step f c : Int) * step ∉ s := by
  intro f
  induction f with
  | zero => intro c hc; omega
  | succ f ih =>
    intro c hc
    by_cases h : c ∈ s
    · have e : walkGo s step (f + 1) c = walkGo s step f (c + step) + 1 := by
        simp [walkGo, h]
      rw [e] at hc ⊢
      have hlt : walkGo s step f (c + step) < f := by omega
      have hnot := ih (c + step) hlt
      have heq : c + ((walkGo s step f (c + step) + 1 : Nat) : Int) * step =
          (c + step) + ((walkGo s step f (c + step) : Nat) : Int) * step := by
        push_cast; ring
      rw [heq]
      exact hnot
    · have e : walkGo s step (f + 1) c = 0 := by simp [walkGo, h]
      rw [e]
      simpa using h

theorem run_le_length {s : List Int} {step : Int} (hstep : step ≠ 0) {c : Int} {n : Nat}
    (h : ∀ k : Nat, k < n → c + (k : Int) * step ∈ s) : n ≤ s.length := by
  classical
  have hinj : Function.Injective (fun k : Nat => c + (k : Int) * step) := by
    intro a b hab
    simp only [add_right_inj] at hab
    exact_mod_cast mul_right_cancel₀ hstep hab
  have hsub : (Finset.range n).image (fun k : Nat => c + (k : Int) * step) ⊆ s.toFinset := by
    intro x hx
    simp only [Finset.mem_image, Finset.mem_range] at hx
    obtain ⟨k, hk, rfl⟩ := hx
    simpa using h k hk
  have h1 : ((Finset.range n).image (fun k : Nat => c + (k : Int) * step)).card = n := by
    rw [Finset.card_image_of_injective _ hinj, Finset.card_range]
  have h2 := Finset.card_le_card hsub
  have h3 := s.toFinset_card_le
  omega

theorem walkGo_fuel_enough (s : List Int) {step : Int} (hstep : step ≠ 0) (c : Int) :
    walkGo s step (s.length + 1) c ≤ s.length :=
  run_le_length hstep (fun k hk => walkGo_mem s step (s.length + 1) c k hk)

theorem walkGo_ge (s : List Int) (step : Int) :
    ∀ (f : Nat) (c : Int) (n : Nat),
      (∀ k : Nat, k < n → c + (k : Int) * step ∈ s) → n ≤ f → n ≤ walkGo s step f c := by
  intro f
  induction f with
  | zero => intro c n _ hn; omega
  | succ f ih =>
    intro c n hmem hn
    cases n with
    | zero => exact Nat.zero_le _
    | succ n =>
      have hc : c ∈ s := by simpa using hmem 0 (by omega)
      rw [show walkGo s step (f + 1) c = walkGo s step f (c + step) + 1 by
        simp [walkGo, hc]]
      have hrec : n ≤ walkGo s step f (c + step) := by
        refine ih (c + step) n (fun k hk => ?_) (by omega)
        have := hmem (k + 1) (by omega)
        have heq : c + ((k + 1 : Nat) : Int) * step = (c + step) + (k : Int) * step := by
          push_cast; ring
        rwa [heq] at this
      omega

/-! ### Lemmas about the fold computing the maximum run length -/

theorem le_foldl_max (g : Int → Nat) (l : List Int) :
    ∀ a : Nat, a ≤ l.foldl (fun m x => max m (g x)) a := by
  induction l with
  | nil => intro a; simp
  | cons x xs ih =>
    intro a
    calc a ≤ max a (g x) := le_max_left _ _
    _ ≤ xs.foldl (fun m x => max m (g x)) (max a (g x)) := ih _

theorem foldl_max_le_of_mem (g : Int → Nat) (l : List Int) :
    ∀ (a : Nat) (d : Int), d ∈ l → g d ≤ l.foldl (fun m x => max m (g x)) a := by
  induction l with
  | nil => intro a d hd; simp at hd
  | cons x xs ih =>
    intro a d hd
    rcases List.mem_cons.mp hd with rfl | hd
    · calc g d ≤ max a (g d) := le_max_right _ _
      _ ≤ xs.foldl (fun m x => max m (g x)) (max a (g d)) := le_foldl_max g xs _
    · exact ih _ d hd

theorem foldl_max_attained (g : Int → Nat) (l : List Int) :
    ∀ a : Nat, l.foldl (fun m x => max m (g x)) a = a ∨
      ∃ d ∈ l, l.foldl (fun m x => max m (g x)) a = g d := by
  induction l with
  | nil => intro a; left; rfl
  | cons x xs ih =>
    intro a
    rcases ih (max a (g x)) with h | ⟨d, hd, h⟩
    · simp only [List.foldl_cons]
      rcases Nat.le_total a (g x) with hle | hle
      · right
        exact ⟨x, List.mem_cons_self x xs, by rw [h]; exact Nat.max_eq_right hle⟩
      · left
        rw [h]; exact Nat.max_eq_left hle
    · right
      exact ⟨d, List.mem_cons_of_mem x hd, h⟩

/-- C6: `calculate_current_streak` counts backward from the reference day
`today` one day at a time while each day is present in the list and
returns that count (so 0 when today is absent, 0 for the empty list);
`longest_consecutive` returns the length of the longest run of
consecutive present days (0 for the empty list): every consecutive run
present in the list bounds it from below and it is itself realised by a
run starting at a member.  On the day set {2024-01-01, 2024-01-02,
2024-01-03, 2024-01-05} (epoch days 19723, 19724, 19725, 19727) with
today = 2024-01-05 the results are 1 and 3. -/
theorem streak_calculators_correct (date_list : List Int) (today : Int) :
    (∀ k : Nat, k < calculate_current_streak date_list today →
        today - (k : Int) ∈ date_list)
    ∧ today - (calculate_current_streak date_list today : Int) ∉ date_list
    ∧ calculate_current_streak [] today = 0
    ∧ longest_consecutive [] = 0
    ∧ (∀ d ∈ date_list, ∀ n : Nat,
        (∀ k : Nat, k < n → d + (k : Int) ∈ date_list) →
          n ≤ longest_consecutive date_list)
    ∧ (date_list ≠ [] → ∃ d ∈ date_list,
        ∀ k : Nat, k < longest_consecutive date_list → d + (k : Int) ∈ date_list)
    ∧ calculate_current_streak [19723, 19724, 19725, 19727] 19727 = 1
    ∧ longest_consecutive [19723, 19724, 19725, 19727] = 3 := by
  refine ⟨?_, ?_, by simp [calculate_current_streak], by simp [longest_consecutive],
    ?_, ?_, by decide, by decide⟩
  · intro k hk
    by_cases hnil : date_list = []
    · simp [calculate_current_streak, hnil] at hk
    · rw [calculate_current_streak, if_neg hnil] at hk
      have := walkGo_mem date_list (-1) (date_list.length + 1) today k hk
      rwa [show today + (k : Int) * (-1) = today - (k : Int) by ring] at this
  · by_cases hnil : date_list = []
    · simp [calculate_current_streak, hnil]
    · rw [calculate_current_streak, if_neg hnil]
      have hfuel : walkGo date_list (-1) (date_list.length + 1) today
          < date_list.length + 1 := by
        have := walkGo_fuel_enough date_list (by norm_num : (-1 : Int) ≠ 0) today
        omega
      have := walkGo_not_mem date_list (-1) (date_list.length + 1) today hfuel
      rwa [show today + ((walkGo date_list (-1) (date_list.length + 1) today : Nat) : Int)
          * (-1) = today - ((walkGo date_list (-1) (date_list.length + 1) today : Nat) : Int)
        by ring] at this
  · intro d hd n hrun
    have hnil : date_list ≠ [] := List.ne_nil_of_mem hd
    rw [longest_consecutive, if_neg hnil]
    cases n with
    | zero => exact Nat.zero_le _
    | succ m =>
      have hbound : m + 1 ≤ date_list.length := by
        refine run_le_length (c := d) (by norm_num : (1 : Int) ≠ 0) (fun k hk => ?_)
        rw [mul_one]; exact hrun k hk
      have hge : m ≤ walkGo date_list 1 (date_list.length + 1) (d + 1) := by
        refine walkGo_ge date_list 1 (date_list.length + 1) (d + 1) m
          (fun k hk => ?_) (by omega)
        have := hrun (k + 1) (by omega)
        rwa [show d + ((k + 1 : Nat) : Int) = (d + 1) + (k : Int) * 1 by push_cast; ring]
          at this
      have hrl : m + 1 ≤ runLen date_list d := by
        rw [runLen]; omega
      calc m + 1 ≤ runLen date_list d := hrl
      _ ≤ date_list.foldl (fun longest d => max longest (runLen date_list d)) 0 :=
          foldl_max_le_of_mem (runLen date_list) date_list 0 d hd
  · intro hnil
    rw [longest_consecutive, if_neg hnil]
    rcases foldl_max_attained (runLen date_list) date_list 0 with h | ⟨d, hd, h⟩
    · obtain ⟨d, hd⟩ := List.exists_mem_of_ne_nil date_list hnil
      exact ⟨d, hd, fun k hk => by rw [h] at hk; omega⟩
    · refine ⟨d, hd, fun k hk => ?_⟩
      rw [h, runLen] at hk
      cases k with
      | zero => simpa using hd
      | succ j =>
        have := walkGo_mem date_list 1 (date_list.length + 1) (d + 1) j (by omega)
        rwa [show (d + 1) + (j : Int) * 1 = d + ((j + 1 : Nat) : Int) by push_cast; ring]
          at this

/-! ### Lemmas about `daily_agg` lookups under the upsert operations -/

theorem keyMatch_eq_true {h : Nat} {d : Int} {b : Bucket} :
    keyMatch h d b = true ↔ b.habit_id = h ∧ b.day = d := by
  simp [keyMatch]

theorem keyMatch_getD_find? (agg : List Bucket) (h : Nat) (d : Int) :
    keyMatch h d ((agg.find? (keyMatch h d)).getD ⟨h, d, 0, 0⟩) = true := by
  cases hf : agg.find? (keyMatch h d) with
  | none => simp [keyMatch]
  | some c => simpa using List.find?_some hf

theorem keyMatch_if_upd (q : Bucket → Bool) (u : Bucket → Bucket)
    (hu : ∀ b, (u b).habit_id = b.habit_id ∧ (u b).day = b.day)
    (h : Nat) (d : Int) (b : Bucket) :
    keyMatch h d (if q b then u b else b) = keyMatch h d b := by
  by_cases hq : q b
  · simp only [if_pos hq, keyMatch, (hu b).1, (hu b).2]
  · rw [if_neg hq]

theorem find?_map_upd (agg : List Bucket) (q : Bucket → Bool) (u : Bucket → Bucket)
    (hu : ∀ b, (u b).habit_id = b.habit_id ∧ (u b).day = b.day) (h : Nat) (d : Int) :
    (agg.map (fun b => if q b then u b else b)).find? (keyMatch h d) =
      (agg.find? (keyMatch h d)).map (fun b => if q b then u b else b) := by
  induction agg with
  | nil => rfl
  | cons b rest ih =>
    simp only [List.map_cons]
    by_cases hb : keyMatch h d b = true
    · rw [List.find?_cons_of_pos _ (by rw [keyMatch_if_upd q u hu]; exact hb),
        List.find?_cons_of_pos _ hb]
      rfl
    · rw [List.find?_cons_of_neg _ (by rw [keyMatch_if_upd q u hu]; exact hb),
        List.find?_cons_of_neg _ hb]
      exact ih

theorem find?_ensureBucket_self (agg : List Bucket) (h : Nat) (d : Int) :
    (ensureBucket agg h d).find? (keyMatch h d) =
      some ((agg.find? (keyMatch h d)).getD ⟨h, d, 0, 0⟩) := by
  unfold ensureBucket
  by_cases ha : agg.any (keyMatch h d)
  · rw [if_pos ha]
    obtain ⟨b, hbmem, hb⟩ := List.any_eq_true.mp ha
    have hs : (agg.find? (keyMatch h d)).isSome := List.find?_isSome.mpr ⟨b, hbmem, hb⟩
    obtain ⟨c, hc⟩ := Option.isSome_iff_exists.mp hs
    rw [hc]; rfl
  · rw [if_neg ha]
    have hnone : agg.find? (keyMatch h d) = none := by
      rw [List.find?_eq_none]
      intro x hx hpx
      exact ha (List.any_eq_true.mpr ⟨x, hx, hpx⟩)
    rw [List.find?_append, hnone]
    simp [keyMatch]

theorem find?_ensureBucket_other (agg : List Bucket) {h h' : Nat} {d d' : Int}
    (hne : ¬(h' = h ∧ d' = d)) :
    (ensureBucket agg h d).find? (keyMatch h' d') = agg.find? (keyMatch h' d') := by
  unfold ensureBucket
  by_cases ha : agg.any (keyMatch h d)
  · rw [if_pos ha]
  · rw [if_neg ha, List.find?_append]
    have hrow : keyMatch h' d' (⟨h, d, 0, 0⟩ : Bucket) = false := by
      rw [Bool.eq_false_iff]
      intro hk
      rcases keyMatch_eq_true.mp hk with ⟨h1, h2⟩
      exact hne ⟨h1.symm, h2.symm⟩
    cases hfind : agg.find? (keyMatch h' d') with
    | none => simp [Option.orElse, hrow]
    | some c => simp [Option.orElse]

theorem upd_id_of_other_key {h h' : Nat} {d d' : Int} {c : Bucket}
    (hk : keyMatch h' d' c = true) (hne : ¬(h' = h ∧ d' = d)) (u : Bucket → Bucket) :
    (if keyMatch h d c then u c else c) = c := by
  rw [if_neg]
  intro hk'
  rcases keyMatch_eq_true.mp hk with ⟨h1, h2⟩
  rcases keyMatch_eq_true.mp hk' with ⟨h1', h2'⟩
  exact hne ⟨h1.symm.trans h1', h2.symm.trans h2'⟩

/-- The bucket row of the logged habit and day after `log_event`: present,
starting from the old row (or a fresh zero row), with the matching `+1`
applied. -/
theorem bucketFor_log_event_self (db : DB) (h : Nat) (ty : String) (now : Nat) :
    bucketFor (log_event db h ty now).1 h (day_of now) =
      some (
        let b := (bucketFor db h (day_of now)).getD ⟨h, day_of now, 0, 0⟩
        if ty = "complete" then { b with completions := b.completions + 1 }
        else if ty = "skip" then { b with skips := b.skips + 1 } else b) := by
  show ((bumpUp (ensureBucket db.daily_agg h (day_of now)) h (day_of now) ty).find?
      (keyMatch h (day_of now))) = _
  have hkey := keyMatch_getD_find? db.daily_agg h (day_of now)
  by_cases hc : ty = "complete"
  · rw [bumpUp, if_pos hc,
      find?_map_upd _ (keyMatch h (day_of now))
        (fun b => { b with completions := b.completions + 1 })
        (fun b => ⟨rfl, rfl⟩) h (day_of now),
      find?_ensureBucket_self, Option.map_some', if_pos hkey]
    simp [bucketFor, hc]
  · by_cases hsk : ty = "skip"
    · rw [bumpUp, if_neg hc, if_pos hsk,
        find?_map_upd _ (keyMatch h (day_of now))
          (fun b => { b with skips := b.skips + 1 })
          (fun b => ⟨rfl, rfl⟩) h (day_of now),
        find?_ensureBucket_self, Option.map_some', if_pos hkey]
      simp [bucketFor, hc, hsk]
    · rw [bumpUp, if_neg hc, if_neg hsk, find?_ensureBucket_self]
      simp [bucketFor, hc, hsk]

/-- `log_event` touches no bucket row other than the one of the logged
habit and day. -/
theorem bucketFor_log_event_other (db : DB) (h : Nat) (ty : String) (now : Nat)
    {h' : Nat} {d' : Int} (hne : ¬(h' = h ∧ d' = day_of now)) :
    bucketFor (log_event db h ty now).1 h' d' = bucketFor db h' d' := by
  show ((bumpUp (ensureBucket db.daily_agg h (day_of now)) h (day_of now) ty).find?
      (keyMatch h' d')) = _
  have hens := find?_ensureBucket_other db.daily_agg hne
  have hmap : ∀ u : Bucket → Bucket, (∀ b, (u b).habit_id = b.habit_id ∧ (u b).day = b.day) →
      ((ensureBucket db.daily_agg h (day_of now)).map
        (fun b => if keyMatch h (day_of now) b then u b else b)).find? (keyMatch h' d') =
        db.daily_agg.find? (keyMatch h' d') := by
    intro u hu
    rw [find?_map_upd _ (keyMatch h (day_of now)) u hu h' d', hens]
    cases hfind : db.daily_agg.find? (keyMatch h' d') with
    | none => rfl
    | some c =>
      rw [Option.map_some', upd_id_of_other_key (List.find?_some hfind) hne u]
  by_cases hc : ty = "complete"
  · rw [bumpUp, if_pos hc]
    exact hmap _ (fun b => ⟨rfl, rfl⟩)
  · by_cases hsk : ty = "skip"
    · rw [bumpUp, if_neg hc, if_pos hsk]
      exact hmap _ (fun b => ⟨rfl, rfl⟩)
    · rw [bumpUp, if_neg hc, if_neg hsk]
      exact hens

theorem getCompletions_log_event (db : DB) (h : Nat) (ty : String) (now : Nat) :
    getCompletions (log_event db h ty now).1 h (day_of now) =
      getCompletions db h (day_of now) + (if ty = "complete" then 1 else 0) := by
  rw [getCompletions, bucketFor_log_event_self]
  cases hb : bucketFor db h (day_of now) <;>
    by_cases hc : ty = "complete" <;> by_cases hsk : ty = "skip" <;>
      simp_all [getCompletions]

theorem getSkips_log_event (db : DB) (h : Nat) (ty : String) (now : Nat) :
    getSkips (log_event db h ty now).1 h (day_of now) =
      getSkips db h (day_of now) + (if ty = "skip" then 1 else 0) := by
  rw [getSkips, bucketFor_log_event_self]
  cases hb : bucketFor db h (day_of now) <;>
    by_cases hc : ty = "complete" <;> by_cases hsk : ty = "skip" <;>
      simp_all [getSkips]

/-- C2: an accepted `record` call appends the event row to the event log
(returning it with its fresh id and timestamp), makes the
(habit, UTC day) bucket row exist, adds 1 to the `completions` counter
exactly when the event type is `complete` and to the `skips` counter
exactly when it is `skip` (so any other event type is stored but changes
neither counter), and touches no other bucket row.  The whole effect is
one state transition of the embedding, the image of the single committed
transaction in the source. -/
theorem log_event_inserts_and_bumps (db : DB) (h : Nat) (ty : String) (now : Nat) :
    (log_event db h ty now).1.habit_logs
        = db.habit_logs ++ [(log_event db h ty now).2]
    ∧ (log_event db h ty now).2 = ⟨db.next_id, h, ty, now⟩
    ∧ (bucketFor (log_event db h ty now).1 h (day_of now)).isSome = true
    ∧ getCompletions (log_event db h ty now).1 h (day_of now)
        = getCompletions db h (day_of now) + (if ty = "complete" then 1 else 0)
    ∧ getSkips (log_event db h ty now).1 h (day_of now)
        = getSkips db h (day_of now) + (if ty = "skip" then 1 else 0)
    ∧ (∀ (h' : Nat) (d' : Int), ¬(h' = h ∧ d' = day_of now) →
        bucketFor (log_event db h ty now).1 h' d' = bucketFor db h' d') := by
  refine ⟨rfl, rfl, ?_, getCompletions_log_event db h ty now,
    getSkips_log_event db h ty now,
    fun h' d' hne => bucketFor_log_event_other db h ty now hne⟩
  rw [bucketFor_log_event_self]
  rfl

/-- Closed instance of `log_event_inserts_and_bumps` at a concrete state
and input, with the frame condition discharged at a concrete other key. -/
theorem log_event_inserts_and_bumps_witness :
    ((log_event emptyDB 1 "complete" 100).1.habit_logs
        = emptyDB.habit_logs ++ [(log_event emptyDB 1 "complete" 100).2])
    ∧ bucketFor (log_event emptyDB 1 "complete" 100).1 2 0 = bucketFor emptyDB 2 0 := by
  have hmain := log_event_inserts_and_bumps emptyDB 1 "complete" 100
  exact ⟨hmain.1, hmain.2.2.2.2.2 2 0 (by decide)⟩

/-- C10: an accepted `record` call whose event type counts for neither
counter (neither `complete` nor `skip`) still creates the (habit, day)
bucket row: when the row was absent it is present afterwards with
`completions = 0` and `skips = 0`, and no other bucket row is touched. -/
theorem log_event_noncounting_creates_zero_bucket (db : DB) (h : Nat) (ty : String)
    (now : Nat) (hc : ty ≠ "complete") (hs : ty ≠ "skip")
    (habs : bucketFor db h (day_of now) = none) :
    bucketFor (log_event db h ty now).1 h (day_of now) = some ⟨h, day_of now, 0, 0⟩
    ∧ (∀ (h' : Nat) (d' : Int), ¬(h' = h ∧ d' = day_of now) →
        bucketFor (log_event db h ty now).1 h' d' = bucketFor db h' d') := by
  refine ⟨?_, fun h' d' hne => bucketFor_log_event_other db h ty now hne⟩
  rw [bucketFor_log_event_self, habs]
  simp [hc, hs]

/-- Closed instance of `log_event_noncounting_creates_zero_bucket`:
logging only the non-counting event type `"note"` against the fresh
database leaves the day's bucket present with zero counts. -/
theorem log_event_noncounting_creates_zero_bucket_witness :
    bucketFor (log_event emptyDB 1 "note" 100).1 1 (day_of 100) =
      some ⟨1, day_of 100, 0, 0⟩ := by
  exact (log_event_noncounting_creates_zero_bucket emptyDB 1 "note" 100
    (by decide) (by decide) (by decide)).1

/-- Closed instance of `streak_calculators_correct` at the day set and
reference day of the worked spec example. -/
theorem streak_calculators_correct_witness :
    calculate_current_streak [19723, 19724, 19725, 19727] 19727 = 1
    ∧ longest_consecutive [19723, 19724, 19725, 19727] = 3
    ∧ (19727 - (calculate_current_streak [19723, 19724, 19725, 19727] 19727 : Int)
        ∉ ([19723, 19724, 19725, 19727] : List Int)) := by
  have hmain := streak_calculators_correct [19723, 19724, 19725, 19727] 19727
  exact ⟨hmain.2.2.2.2.2.2.1, hmain.2.2.2.2.2.2.2, hmain.2.1⟩

/-! ### Lemmas about the `ORDER BY timestamp DESC LIMIT 1` selection -/

theorem latestIn_eq_none {l : List Event} : latestIn l = none ↔ l = [] := by
  cases l with
  | nil => simp [latestIn]
  | cons e rest =>
    simp only [latestIn]
    cases hrest : latestIn rest
    · simp [hrest]
    · simp only [hrest]
      split <;> simp

theorem latestIn_mem {l : List Event} {e : Event} (h : latestIn l = some e) : e ∈ l := by
  induction l generalizing e with
  | nil => simp [latestIn] at h
  | cons a rest ih =>
    cases hrest : latestIn rest with
    | none =>
      simp only [latestIn, hrest] at h
      cases h
      exact List.mem_cons_self a rest
    | some b =>
      simp only [latestIn, hrest] at h
      by_cases hlt : a.timestamp < b.timestamp
      · rw [if_pos hlt] at h
        cases h
        exact List.mem_cons_of_mem a (ih hrest)
      · rw [if_neg hlt] at h
        cases h
        exact List.mem_cons_self a rest

theorem latestIn_max {l : List Event} {e : Event} (h : latestIn l = some e) :
    ∀ x ∈ l, x.timestamp ≤ e.timestamp := by
  induction l generalizing e with
  | nil => simp [latestIn] at h
  | cons a rest ih =>
    intro x hx
    cases hrest : latestIn rest with
    | none =>
      simp only [latestIn, hrest] at h
      cases h
      rcases List.mem_cons.mp hx with rfl | hx
      · exact le_refl _
      · rw [latestIn_eq_none.mp hrest] at hx
        simp at hx
    | some b =>
      simp only [latestIn, hrest] at h
      by_cases hlt : a.timestamp < b.timestamp
      · rw [if_pos hlt] at h
        cases h
        rcases List.mem_cons.mp hx with rfl | hx
        · exact le_of_lt hlt
        · exact ih hrest x hx
      · rw [if_neg hlt] at h
        cases h
        rcases List.mem_cons.mp hx with rfl | hx
        · exact le_refl _
        · exact le_trans (ih hrest x hx) (le_of_not_lt hlt)

/-- The selected row is the first, in insertion order, among those with
the maximal timestamp: every row before it has a strictly smaller
timestamp. -/
theorem latestIn_decomp {l : List Event} {e : Event} (h : latestIn l = some e) :
    ∃ s t, l = s ++ e :: t ∧ ∀ x ∈ s, x.timestamp < e.timestamp := by
  induction l generalizing e with
  | nil => simp [latestIn] at h
  | cons a rest ih =>
    cases hrest : latestIn rest with
    | none =>
      simp only [latestIn, hrest] at h
      cases h
      exact ⟨[], rest, rfl, by simp⟩
    | some b =>
      simp only [latestIn, hrest] at h
      by_cases hlt : a.timestamp < b.timestamp
      · rw [if_pos hlt] at h
        cases h
        obtain ⟨s, t, hl, hs⟩ := ih hrest
        refine ⟨a :: s, t, by simp [hl], fun x hx => ?_⟩
        rcases List.mem_cons.mp hx with rfl | hx
        · exact hlt
        · exact hs x hx
      · rw [if_neg hlt] at h
        cases h
        exact ⟨[], rest, rfl, by simp⟩

/-- C4: when no event of the habit lies inside the undo window, the call
reports the empty result and the state — event log, buckets and id
counter alike — is exactly unchanged. -/
theorem undo_without_candidate_is_noop (db : DB) (h : Nat) (w : Nat) (now : Nat)
    (hnone : ∀ e ∈ db.habit_logs, e.habit_id = h → e.timestamp < now - w) :
    undo_last_event db h w now = (db, none) := by
  have hcand : undoCandidates db h w now = [] := by
    rw [undoCandidates, List.filter_eq_nil_iff]
    intro e he
    simp only [Bool.and_eq_true, beq_iff_eq, decide_eq_true_eq, not_and]
    intro hh
    exact fun hts => absurd (hnone e he hh) (by omega)
  rw [undo_last_event, hcand]
  rfl

/-- Closed instance of `undo_without_candidate_is_noop`: undoing against
a state whose only event is outside the window changes nothing. -/
theorem undo_without_candidate_is_noop_witness :
    undo_last_event ⟨[⟨1, 1, "complete", 100⟩], [⟨1, 0, 1, 0⟩], 2⟩ 1 60 1000 =
      (⟨[⟨1, 1, "complete", 100⟩], [⟨1, 0, 1, 0⟩], 2⟩, none) :=
  undo_without_candidate_is_noop ⟨[⟨1, 1, "complete", 100⟩], [⟨1, 0, 1, 0⟩], 2⟩ 1 60 1000
    (by decide)

theorem find?_updIf_other (agg : List Bucket) (h : Nat) (d : Int)
    (u : Bucket → Bucket) (hu : ∀ b, (u b).habit_id = b.habit_id ∧ (u b).day = b.day)
    {h' : Nat} {d' : Int} (hne : ¬(h' = h ∧ d' = d)) :
    (agg.map (fun b => if keyMatch h d b then u b else b)).find? (keyMatch h' d') =
      agg.find? (keyMatch h' d') := by
  rw [find?_map_upd _ (keyMatch h d) u hu h' d']
  cases hfind : agg.find? (keyMatch h' d') with
  | none => rfl
  | some c => rw [Option.map_some', upd_id_of_other_key (List.find?_some hfind) hne u]

theorem find?_bumpDown_self (agg : List Bucket) (h : Nat) (d : Int) (ty : String) :
    (bumpDown agg h d ty).find? (keyMatch h d) =
      (agg.find? (keyMatch h d)).map (fun b =>
        if ty = "complete" then { b with completions := clampDec b.completions }
        else if ty = "skip" then { b with skips := clampDec b.skips } else b) := by
  by_cases hc : ty = "complete"
  · rw [bumpDown, if_pos hc, find?_map_upd _ (keyMatch h d)
      (fun b => { b with completions := clampDec b.completions }) (fun b => ⟨rfl, rfl⟩) h d]
    cases hf : agg.find? (keyMatch h d) with
    | none => rfl
    | some c =>
      rw [Option.map_some', Option.map_some', if_pos (List.find?_some hf), if_pos hc]
  · by_cases hsk : ty = "skip"
    · rw [bumpDown, if_neg hc, if_pos hsk, find?_map_upd _ (keyMatch h d)
        (fun b => { b with skips := clampDec b.skips }) (fun b => ⟨rfl, rfl⟩) h d]
      cases hf : agg.find? (keyMatch h d) with
      | none => rfl
      | some c =>
        rw [Option.map_some', Option.map_some', if_pos (List.find?_some hf),
          if_neg hc, if_pos hsk]
    · rw [bumpDown, if_neg hc, if_neg hsk]
      cases hf : agg.find? (keyMatch h d) <;> simp [hf, hc, hsk]

theorem find?_bumpDown_other (agg : List Bucket) (h : Nat) (d : Int) (ty : String)
    {h' : Nat} {d' : Int} (hne : ¬(h' = h ∧ d' = d)) :
    (bumpDown agg h d ty).find? (keyMatch h' d') = agg.find? (keyMatch h' d') := by
  by_cases hc : ty = "complete"
  · rw [bumpDown, if_pos hc]
    exact find?_updIf_other agg h d
      (fun b => { b with completions := clampDec b.completions }) (fun b => ⟨rfl, rfl⟩) hne
  · by_cases hsk : ty = "skip"
    · rw [bumpDown, if_neg hc, if_pos hsk]
      exact find?_updIf_other agg h d
        (fun b => { b with skips := clampDec b.skips }) (fun b => ⟨rfl, rfl⟩) hne
    · rw [bumpDown, if_neg hc, if_neg hsk]

/-- Deleting by the id of a member of a log with strictly increasing ids
removes exactly that row. -/
theorem filter_ne_id_decomp {l : List Event} {e : Event} (he : e ∈ l)
    (hids : l.Pairwise (fun a b => a.id < b.id)) :
    ∃ s t, l = s ++ e :: t ∧ l.filter (fun x => !(x.id == e.id)) = s ++ t := by
  obtain ⟨s, t, rfl⟩ := List.append_of_mem he
  refine ⟨s, t, rfl, ?_⟩
  rw [List.filter_append]
  rcases List.pairwise_append.mp hids with ⟨hps, hpet, hcross⟩
  have hs : s.filter (fun x => !(x.id == e.id)) = s := by
    rw [List.filter_eq_self]
    intro x hx
    simpa using Nat.ne_of_lt (hcross x hx e (List.mem_cons_self e t))
  have ht : t.filter (fun x => !(x.id == e.id)) = t := by
    rw [List.filter_eq_self]
    intro x hx
    simpa using ne_of_gt ((List.pairwise_cons.mp hpet).1 x hx)
  rw [hs, List.filter_cons_of_neg (by simp), ht]

/-- C3: when `undo` reverses an event `e`, then `e` is an event of the
requested habit inside the window with the maximal timestamp among all
such events; exactly that one row is removed from the event log; the
counter matching `e`'s event type in the bucket of the day of `e`'s
timestamp receives the (zero-clamped) decrement, the other counter of
that bucket is unchanged, and no other bucket row is touched. -/
theorem undo_reverses_single_most_recent (db : DB) (h : Nat) (w : Nat) (now : Nat)
    (e : Event) (hids : db.habit_logs.Pairwise (fun a b => a.id < b.id))
    (hsel : (undo_last_event db h w now).2 = some e) :
    (e ∈ db.habit_logs ∧ e.habit_id = h ∧ now - w ≤ e.timestamp)
    ∧ (∀ x ∈ db.habit_logs, x.habit_id = h → now - w ≤ x.timestamp →
        x.timestamp ≤ e.timestamp)
    ∧ (∃ s t, db.habit_logs = s ++ e :: t
        ∧ (undo_last_event db h w now).1.habit_logs = s ++ t)
    ∧ getCompletions (undo_last_event db h w now).1 h (day_of e.timestamp)
        = (if e.event_type = "complete"
            then clampDec (getCompletions db h (day_of e.timestamp))
            else getCompletions db h (day_of e.timestamp))
    ∧ getSkips (undo_last_event db h w now).1 h (day_of e.timestamp)
        = (if e.event_type = "skip"
            then clampDec (getSkips db h (day_of e.timestamp))
            else getSkips db h (day_of e.timestamp))
    ∧ (∀ (h' : Nat) (d' : Int), ¬(h' = h ∧ d' = day_of e.timestamp) →
        bucketFor (undo_last_event db h w now).1 h' d' = bucketFor db h' d') := by
  cases hmatch : latestIn (undoCandidates db h w now) with
  | none =>
    rw [undo_last_event, hmatch] at hsel
    cases hsel
  | some e' =>
    have heq : e' = e := by
      rw [undo_last_event, hmatch] at hsel
      cases hsel
      rfl
    subst heq
    have hmem := latestIn_mem hmatch
    have hcond := (List.mem_filter.mp hmem).2
    simp only [Bool.and_eq_true, beq_iff_eq, decide_eq_true_eq] at hcond
    have hmeml : e' ∈ db.habit_logs := (List.mem_filter.mp hmem).1
    have hstate : undo_last_event db h w now =
        (⟨db.habit_logs.filter (fun x => !(x.id == e'.id)),
          bumpDown db.daily_agg h (day_of e'.timestamp) e'.event_type,
          db.next_id⟩, some e') := by
      rw [undo_last_event, hmatch]
    refine ⟨⟨hmeml, hcond.1, hcond.2⟩, ?_, ?_, ?_, ?_, ?_⟩
    · intro x hx hxh hxw
      refine latestIn_max hmatch x ?_
      rw [undoCandidates, List.mem_filter]
      exact ⟨hx, by simp [hxh, hxw]⟩
    · obtain ⟨s, t, hl, hf⟩ := filter_ne_id_decomp hmeml hids
      exact ⟨s, t, hl, by rw [hstate]; exact hf⟩
    · rw [hstate, getCompletions, getCompletions]
      show ((bumpDown db.daily_agg h (day_of e'.timestamp) e'.event_type).find?
          (keyMatch h (day_of e'.timestamp)) |>.map Bucket.completions).getD 0 = _
      rw [find?_bumpDown_self]
      cases hf : db.daily_agg.find? (keyMatch h (day_of e'.timestamp)) with
      | none => by_cases hc : e'.event_type = "complete" <;> simp [bucketFor, hf, hc, clampDec]
      | some c =>
        by_cases hc : e'.event_type = "complete" <;>
          by_cases hsk : e'.event_type = "skip" <;>
            simp_all [bucketFor, hf]
    · rw [hstate, getSkips, getSkips]
      show ((bumpDown db.daily_agg h (day_of e'.timestamp) e'.event_type).find?
          (keyMatch h (day_of e'.timestamp)) |>.map Bucket.skips).getD 0 = _
      rw [find?_bumpDown_self]
      cases hf : db.daily_agg.find? (keyMatch h (day_of e'.timestamp)) with
      | none => by_cases hsk : e'.event_type = "skip" <;> simp [bucketFor, hf, hsk, clampDec]
      | some c =>
        by_cases hc : e'.event_type = "complete" <;>
          by_cases hsk : e'.event_type = "skip" <;>
            simp_all [bucketFor, hf]
    · intro h' d' hne
      rw [hstate, bucketFor, bucketFor]
      exact find?_bumpDown_other db.daily_agg h (day_of e'.timestamp) e'.event_type hne

/-- Closed instance of `undo_reverses_single_most_recent`: undoing a
lone `complete` event applies the clamped decrement to its day's
completions counter. -/
theorem undo_reverses_single_most_recent_witness :
    getCompletions (undo_last_event ⟨[⟨1, 1, "complete", 100⟩], [⟨1, 0, 1, 0⟩], 2⟩
        1 60 110).1 1 (day_of 100)
      = clampDec (getCompletions ⟨[⟨1, 1, "complete", 100⟩], [⟨1, 0, 1, 0⟩], 2⟩
          1 (day_of 100)) := by
  have hmain := undo_reverses_single_most_recent
    ⟨[⟨1, 1, "complete", 100⟩], [⟨1, 0, 1, 0⟩], 2⟩ 1 60 110 ⟨1, 1, "complete", 100⟩
    (by simp) (by decide)
  simpa using hmain.2.2.2.1

/-! ### Non-negativity of the rollup counters -/

theorem clampDec_nonneg (n : Int) : 0 ≤ clampDec n := by
  rw [clampDec]
  split_ifs <;> omega

theorem nonneg_ensureBucket {agg : List Bucket} {h : Nat} {d : Int}
    (hnn : ∀ b ∈ agg, 0 ≤ b.completions ∧ 0 ≤ b.skips) :
    ∀ b ∈ ensureBucket agg h d, 0 ≤ b.completions ∧ 0 ≤ b.skips := by
  intro b hb
  rw [ensureBucket] at hb
  split_ifs at hb with ha
  · exact hnn b hb
  · rcases List.mem_append.mp hb with hb | hb
    · exact hnn b hb
    · rcases List.mem_singleton.mp hb with rfl
      exact ⟨le_refl 0, le_refl 0⟩

theorem nonneg_bumpUp {agg : List Bucket} {h : Nat} {d : Int} {ty : String}
    (hnn : ∀ b ∈ agg, 0 ≤ b.completions ∧ 0 ≤ b.skips) :
    ∀ b ∈ bumpUp agg h d ty, 0 ≤ b.completions ∧ 0 ≤ b.skips := by
  intro b hb
  rw [bumpUp] at hb
  split_ifs at hb with h1 h2
  · obtain ⟨a, ha, rfl⟩ := List.mem_map.mp hb
    have := hnn a ha
    by_cases hk : keyMatch h d a <;> simp [hk] <;> omega
  · obtain ⟨a, ha, rfl⟩ := List.mem_map.mp hb
    have := hnn a ha
    by_cases hk : keyMatch h d a <;> simp [hk] <;> omega
  · exact hnn b hb

theorem nonneg_bumpDown {agg : List Bucket} {h : Nat} {d : Int} {ty : String}
    (hnn : ∀ b ∈ agg, 0 ≤ b.completions ∧ 0 ≤ b.skips) :
    ∀ b ∈ bumpDown agg h d ty, 0 ≤ b.completions ∧ 0 ≤ b.skips := by
  intro b hb
  rw [bumpDown] at hb
  split_ifs at hb with h1 h2
  · obtain ⟨a, ha, rfl⟩ := List.mem_map.mp hb
    have := hnn a ha
    by_cases hk : keyMatch h d a <;> simp [hk, clampDec_nonneg] <;> omega
  · obtain ⟨a, ha, rfl⟩ := List.mem_map.mp hb
    have := hnn a ha
    by_cases hk : keyMatch h d a <;> simp [hk, clampDec_nonneg] <;> omega
  · exact hnn b hb

/-- C5: every operation keeps all `daily_agg` counters non-negative:
`record` only ever adds 1 (or creates zero rows), and the decrement of
`undo` is clamped — applied to a counter that is already zero (or
negative) it yields zero, never a negative value. -/
theorem daily_agg_counters_nonneg (db : DB) (op : Op)
    (hnn : ∀ b ∈ db.daily_agg, 0 ≤ b.completions ∧ 0 ≤ b.skips) :
    (∀ b ∈ (applyOp db op).daily_agg, 0 ≤ b.completions ∧ 0 ≤ b.skips)
    ∧ clampDec 0 = 0 := by
  refine ⟨?_, by decide⟩
  cases op with
  | record h ty now =>
    exact nonneg_bumpUp (nonneg_ensureBucket hnn)
  | undo h w now =>
    show ∀ b ∈ (undo_last_event db h w now).1.daily_agg, _
    cases hmatch : latestIn (undoCandidates db h w now) with
    | none =>
      rw [undo_last_event, hmatch]
      exact hnn
    | some e =>
      rw [undo_last_event, hmatch]
      exact nonneg_bumpDown hnn

/-- Closed instance of `daily_agg_counters_nonneg`: undoing the lone
`complete` event of a day whose completions counter is already 0 leaves
the surviving bucket row non-negative (the clamp turns the decrement
into 0). -/
theorem daily_agg_counters_nonneg_witness :
    0 ≤ (⟨1, 0, 0, 0⟩ : Bucket).completions ∧ 0 ≤ (⟨1, 0, 0, 0⟩ : Bucket).skips :=
  (daily_agg_counters_nonneg ⟨[⟨1, 1, "complete", 100⟩], [⟨1, 0, 0, 0⟩], 2⟩
    (.undo 1 60 110) (by decide)).1 ⟨1, 0, 0, 0⟩ (by decide)

/-! ### The aggregate-consistency invariant -/

theorem eventCount_log_event (db : DB) (h : Nat) (ty : String) (now : Nat)
    (h' : Nat) (d' : Int) (ty' : String) :
    eventCount (log_event db h ty now).1 h' d' ty' =
      eventCount db h' d' ty' +
        (if h = h' ∧ day_of now = d' ∧ ty = ty' then 1 else 0) := by
  rw [eventCount, eventCount]
  show (List.filter _ (db.habit_logs ++ [⟨db.next_id, h, ty, now⟩])).length = _
  rw [List.filter_append, List.length_append]
  congr 1
  by_cases hcond : h = h' ∧ day_of now = d' ∧ ty = ty'
  · rcases hcond with ⟨rfl, hd, rfl⟩
    simp [hd]
  · rw [if_neg hcond]
    have hpred : (fun e : Event =>
        e.habit_id == h' && day_of e.timestamp == d' && e.event_type == ty')
          ⟨db.next_id, h, ty, now⟩ = false := by
      rw [Bool.eq_false_iff]
      intro hb
      simp only [Bool.and_eq_true, beq_iff_eq] at hb
      exact hcond ⟨hb.1.1, hb.1.2, hb.2⟩
    simp [hpred]

theorem length_filter_remove {l : List Event} {e : Event} {s t : List Event}
    (hdecomp : l = s ++ e :: t)
    (hfilter : l.filter (fun x => !(x.id == e.id)) = s ++ t) (p : Event → Bool) :
    (l.filter p).length =
      ((l.filter (fun x => !(x.id == e.id))).filter p).length +
        (if p e then 1 else 0) := by
  subst hdecomp
  rw [hfilter, List.filter_append, List.filter_append, List.length_append,
    List.length_append, List.filter_cons]
  by_cases hp : p e
  · simp [hp]
    omega
  · simp [hp]

theorem map_getD_bumpDown_compl (agg : List Bucket) (h : Nat) (d : Int) (ty : String) :
    (((bumpDown agg h d ty).find? (keyMatch h d)).map Bucket.completions).getD 0 =
      (if ty = "complete"
        then clampDec (((agg.find? (keyMatch h d)).map Bucket.completions).getD 0)
        else ((agg.find? (keyMatch h d)).map Bucket.completions).getD 0) := by
  rw [find?_bumpDown_self]
  cases hf : agg.find? (keyMatch h d) with
  | none => by_cases hc : ty = "complete" <;> simp [hc, clampDec]
  | some c =>
    by_cases hc : ty = "complete" <;> by_cases hs : ty = "skip" <;> simp_all

theorem map_getD_bumpDown_skips (agg : List Bucket) (h : Nat) (d : Int) (ty : String) :
    (((bumpDown agg h d ty).find? (keyMatch h d)).map Bucket.skips).getD 0 =
      (if ty = "skip"
        then clampDec (((agg.find? (keyMatch h d)).map Bucket.skips).getD 0)
        else ((agg.find? (keyMatch h d)).map Bucket.skips).getD 0) := by
  rw [find?_bumpDown_self]
  cases hf : agg.find? (keyMatch h d) with
  | none => by_cases hs : ty = "skip" <;> simp [hs, clampDec]
  | some c =>
    by_cases hc : ty = "complete" <;> by_cases hs : ty = "skip" <;> simp_all

theorem invariant_record (db : DB) (h : Nat) (ty : String) (now : Nat)
    (hwf : WFids db) (hcons : Consistent db) :
    WFids (log_event db h ty now).1 ∧ Consistent (log_event db h ty now).1 := by
  constructor
  · constructor
    · show (db.habit_logs ++ [(⟨db.next_id, h, ty, now⟩ : Event)]).Pairwise
        (fun a b => a.id < b.id)
      rw [List.pairwise_append]
      refine ⟨hwf.1, List.pairwise_singleton _ _, fun a ha b hb => ?_⟩
      rcases List.mem_singleton.mp hb with rfl
      exact hwf.2 a ha
    · intro e he
      rcases List.mem_append.mp he with he | he
      · exact Nat.lt_succ_of_lt (hwf.2 e he)
      · rcases List.mem_singleton.mp he with rfl
        exact Nat.lt_succ_self _
  · intro h' d'
    constructor
    · by_cases hkey : h' = h ∧ d' = day_of now
      · rcases hkey with ⟨rfl, rfl⟩
        rw [getCompletions_log_event, eventCount_log_event, (hcons h' (day_of now)).1]
        by_cases hty : ty = "complete" <;> simp [hty]
      · rw [eventCount_log_event]
        have hne : ¬(h = h' ∧ day_of now = d' ∧ ty = "complete") := by
          intro hx
          exact hkey ⟨hx.1.symm, hx.2.1.symm⟩
        rw [if_neg hne]
        have hb := bucketFor_log_event_other db h ty now hkey
        rw [getCompletions, hb]
        simpa using (hcons h' d').1
    · by_cases hkey : h' = h ∧ d' = day_of now
      · rcases hkey with ⟨rfl, rfl⟩
        rw [getSkips_log_event, eventCount_log_event, (hcons h' (day_of now)).2]
        by_cases hty : ty = "skip" <;> simp [hty]
      · rw [eventCount_log_event]
        have hne : ¬(h = h' ∧ day_of now = d' ∧ ty = "skip") := by
          intro hx
          exact hkey ⟨hx.1.symm, hx.2.1.symm⟩
        rw [if_neg hne]
        have hb := bucketFor_log_event_other db h ty now hkey
        rw [getSkips, hb]
        simpa using (hcons h' d').2

theorem invariant_undo (db : DB) (h : Nat) (w : Nat) (now : Nat)
    (hwf : WFids db) (hcons : Consistent db) :
    WFids (undo_last_event db h w now).1 ∧ Consistent (undo_last_event db h w now).1 := by
  cases hmatch : latestIn (undoCandidates db h w now) with
  | none =>
    rw [undo_last_event, hmatch]
    exact ⟨hwf, hcons⟩
  | some e =>
    have hmem := latestIn_mem hmatch
    have hmeml : e ∈ db.habit_logs := (List.mem_filter.mp hmem).1
    have hcond := (List.mem_filter.mp hmem).2
    simp only [Bool.and_eq_true, beq_iff_eq, decide_eq_true_eq] at hcond
    obtain ⟨s, t, hl, hfe⟩ := filter_ne_id_decomp hmeml hwf.1
    have hstate : (undo_last_event db h w now).1 =
        ⟨db.habit_logs.filter (fun x => !(x.id == e.id)),
          bumpDown db.daily_agg h (day_of e.timestamp) e.event_type, db.next_id⟩ := by
      rw [undo_last_event, hmatch]
    rw [hstate]
    constructor
    · exact ⟨List.Pairwise.sublist (List.filter_sublist _) hwf.1,
        fun x hx => hwf.2 x (List.mem_of_mem_filter hx)⟩
    · intro h' d'
      have hcount := fun p => length_filter_remove hl hfe p
      constructor
      · show (((bumpDown db.daily_agg h (day_of e.timestamp) e.event_type).find?
            (keyMatch h' d')).map Bucket.completions).getD 0 = _
        by_cases hkey : h' = h ∧ d' = day_of e.timestamp
        · rcases hkey with ⟨rfl, rfl⟩
          rw [map_getD_bumpDown_compl]
          have hc1 := hcount (fun ev =>
            ev.habit_id == h' && day_of ev.timestamp == day_of e.timestamp
              && ev.event_type == "complete")
          have hc2 := (hcons h' (day_of e.timestamp)).1
          rw [getCompletions, bucketFor, eventCount] at hc2
          by_cases hty : e.event_type = "complete"
          · have hpe : (e.habit_id == h' && day_of e.timestamp == day_of e.timestamp
                && e.event_type == "complete") = true := by
              simp [hcond.1, hty]
            rw [hpe, if_pos rfl] at hc1
            rw [if_pos hty, hc2, hc1]
            simp only [eventCount]
            rw [clampDec, if_pos (by push_cast; omega)]
            push_cast
            ring
          · have hpe : (e.habit_id == h' && day_of e.timestamp == day_of e.timestamp
                && e.event_type == "complete") = false := by
              simp [hty]
            rw [hpe, if_neg (by simp)] at hc1
            rw [Nat.add_zero] at hc1
            rw [if_neg hty, hc2, hc1]
            simp only [eventCount]
        · rw [find?_bumpDown_other db.daily_agg h (day_of e.timestamp) e.event_type hkey]
          have hc1 := hcount (fun ev =>
            ev.habit_id == h' && day_of ev.timestamp == d' && ev.event_type == "complete")
          have hpe : (e.habit_id == h' && day_of e.timestamp == d'
              && e.event_type == "complete") = false := by
            rw [Bool.eq_false_iff]
            intro hb
            simp only [Bool.and_eq_true, beq_iff_eq] at hb
            exact hkey ⟨hb.1.1.symm.trans hcond.1, hb.1.2.symm⟩
          rw [hpe, if_neg (by simp), Nat.add_zero] at hc1
          have hc2 := (hcons h' d').1
          rw [getCompletions, bucketFor, eventCount] at hc2
          rw [hc2, hc1]
          simp only [eventCount]
      · show (((bumpDown db.daily_agg h (day_of e.timestamp) e.event_type).find?
            (keyMatch h' d')).map Bucket.skips).getD 0 = _
        by_cases hkey : h' = h ∧ d' = day_of e.timestamp
        · rcases hkey with ⟨rfl, rfl⟩
          rw [map_getD_bumpDown_skips]
          have hc1 := hcount (fun ev =>
            ev.habit_id == h' && day_of ev.timestamp == day_of e.timestamp
              && ev.event_type == "skip")
          have hc2 := (hcons h' (day_of e.timestamp)).2
          rw [getSkips, bucketFor, eventCount] at hc2
          by_cases hty : e.event_type = "skip"
          · have hpe : (e.habit_id == h' && day_of e.timestamp == day_of e.timestamp
                && e.event_type == "skip") = true := by
              simp [hcond.1, hty]
            rw [hpe, if_pos rfl] at hc1
            rw [if_pos hty, hc2, hc1]
            simp only [eventCount]
            rw [clampDec, if_pos (by push_cast; omega)]
            push_cast
            ring
          · have hpe : (e.habit_id == h' && day_of e.timestamp == day_of e.timestamp
                && e.event_type == "skip") = false := by
              simp [hty]
            rw [hpe, if_neg (by simp)] at hc1
            rw [Nat.add_zero] at hc1
            rw [if_neg hty, hc2, hc1]
            simp only [eventCount]
        · rw [find?_bumpDown_other db.daily_agg h (day_of e.timestamp) e.event_type hkey]
          have hc1 := hcount (fun ev =>
            ev.habit_id == h' && day_of ev.timestamp == d' && ev.event_type == "skip")
          have hpe : (e.habit_id == h' && day_of e.timestamp == d'
              && e.event_type == "skip") = false := by
            rw [Bool.eq_false_iff]
            intro hb
            simp only [Bool.and_eq_true, beq_iff_eq] at hb
            exact hkey ⟨hb.1.1.symm.trans hcond.1, hb.1.2.symm⟩
          rw [hpe, if_neg (by simp), Nat.add_zero] at hc1
          have hc2 := (hcons h' d').2
          rw [getSkips, bucketFor, eventCount] at hc2
          rw [hc2, hc1]
          simp only [eventCount]


theorem invariant_step (db : DB) (op : Op) (hwf : WFids db) (hcons : Consistent db) :
    WFids (applyOp db op) ∧ Consistent (applyOp db op) := by
  cases op with
  | record h ty now => exact invariant_record db h ty now hwf hcons
  | undo h w now => exact invariant_undo db h w now hwf hcons

theorem invariant_runOps (ops : List Op) : WFids (runOps ops) ∧ Consistent (runOps ops) := by
  rw [runOps]
  suffices hgen : ∀ (l : List Op) (db : DB), WFids db → Consistent db →
      WFids (l.foldl applyOp db) ∧ Consistent (l.foldl applyOp db) by
    refine hgen ops emptyDB ⟨List.Pairwise.nil, fun e he => ?_⟩ (fun h d => ⟨rfl, rfl⟩)
    simp [emptyDB] at he
  intro l
  induction l with
  | nil => intro db hwf hcons; exact ⟨hwf, hcons⟩
  | cons op rest ih =>
    intro db hwf hcons
    obtain ⟨hwf', hcons'⟩ := invariant_step db op hwf hcons
    exact ih _ hwf' hcons'

/-- C1: after any sequence of `record` and `undo` calls against the
fresh database (in particular any sequence on a single habit), every
(habit, UTC day) `completions` counter equals the number of surviving
`complete` events of that habit whose timestamp falls on that day, and
`skips` likewise for `skip` events.  Starting from the fresh state the
zero-floor clamp never masks anything, so the equality is exact. -/
theorem record_undo_aggregate_consistency (ops : List Op) (h : Nat) (d : Int) :
    getCompletions (runOps ops) h d = (eventCount (runOps ops) h d "complete" : Int)
    ∧ getSkips (runOps ops) h d = (eventCount (runOps ops) h d "skip" : Int) :=
  (invariant_runOps ops).2 h d

/-! ### The 30-day completion rate -/

/-- C7: on any state whose events all lie on or before the reference
day (the reachable situation, since timestamps are generated at call
time), the reported 30-day completion rate equals
`completes / (completes + skips) * 100` rounded to one decimal place
over the `complete` and `skip` events of the 30-day window
`[today - 29, today]`, and equals 0 when that window holds no such
events; in particular 7 completes and 3 skips yield 70 and the empty
state yields 0. -/
theorem completion_rate_30d_spec (db : DB) (today : Int)
    (hpast : ∀ e ∈ db.habit_logs, day_of e.timestamp ≤ today) :
    (completion_rate_30d db today =
      (if ((db.habit_logs.filter (fun e => e.event_type == "complete"
            && today - 29 ≤ day_of e.timestamp && day_of e.timestamp ≤ today)).length
          + (db.habit_logs.filter (fun e => e.event_type == "skip"
            && today - 29 ≤ day_of e.timestamp && day_of e.timestamp ≤ today)).length) = 0
        then 0
        else round1
          (((db.habit_logs.filter (fun e => e.event_type == "complete"
              && today - 29 ≤ day_of e.timestamp && day_of e.timestamp ≤ today)).length : ℚ)
            / (((db.habit_logs.filter (fun e => e.event_type == "complete"
                && today - 29 ≤ day_of e.timestamp && day_of e.timestamp ≤ today)).length : ℚ)
              + ((db.habit_logs.filter (fun e => e.event_type == "skip"
                && today - 29 ≤ day_of e.timestamp && day_of e.timestamp ≤ today)).length : ℚ))
            * 100)))
    ∧ completion_rate_30d ⟨[⟨1, 1, "complete", 0⟩, ⟨2, 1, "complete", 0⟩,
        ⟨3, 1, "complete", 0⟩, ⟨4, 1, "complete", 0⟩, ⟨5, 1, "complete", 0⟩,
        ⟨6, 1, "complete", 0⟩, ⟨7, 1, "complete", 0⟩, ⟨8, 1, "skip", 0⟩,
        ⟨9, 1, "skip", 0⟩, ⟨10, 1, "skip", 0⟩], [], 11⟩ 0 = 70
    ∧ completion_rate_30d emptyDB 0 = 0 := by
  refine ⟨?_, ?_, rfl⟩
  · have hfc : db.habit_logs.filter
        (fun e => e.event_type == "complete" && today - 29 ≤ day_of e.timestamp) =
        db.habit_logs.filter (fun e => e.event_type == "complete"
          && today - 29 ≤ day_of e.timestamp && day_of e.timestamp ≤ today) :=
      List.filter_congr (fun x hx => by simp [hpast x hx, Bool.and_assoc])
    have hfs : db.habit_logs.filter
        (fun e => e.event_type == "skip" && today - 29 ≤ day_of e.timestamp) =
        db.habit_logs.filter (fun e => e.event_type == "skip"
          && today - 29 ≤ day_of e.timestamp && day_of e.timestamp ≤ today) :=
      List.filter_congr (fun x hx => by simp [hpast x hx, Bool.and_assoc])
    rw [completion_rate_30d, hfc, hfs]
    by_cases h0 : ((db.habit_logs.filter (fun e => e.event_type == "complete"
          && today - 29 ≤ day_of e.timestamp && day_of e.timestamp ≤ today)).length
        + (db.habit_logs.filter (fun e => e.event_type == "skip"
          && today - 29 ≤ day_of e.timestamp && day_of e.timestamp ≤ today)).length) = 0
    · rw [if_neg (by omega), if_pos h0]
    · rw [if_pos (by omega), if_neg h0]
      push_cast
      ring_nf
  · have hc : ((⟨[⟨1, 1, "complete", 0⟩, ⟨2, 1, "complete", 0⟩,
        ⟨3, 1, "complete", 0⟩, ⟨4, 1, "complete", 0⟩, ⟨5, 1, "complete", 0⟩,
        ⟨6, 1, "complete", 0⟩, ⟨7, 1, "complete", 0⟩, ⟨8, 1, "skip", 0⟩,
        ⟨9, 1, "skip", 0⟩, ⟨10, 1, "skip", 0⟩], [], 11⟩ : DB).habit_logs.filter
          (fun e => e.event_type == "complete"
            && (0 : Int) - 29 ≤ day_of e.timestamp)).length = 7 := by decide
    have hs : ((⟨[⟨1, 1, "complete", 0⟩, ⟨2, 1, "complete", 0⟩,
        ⟨3, 1, "complete", 0⟩, ⟨4, 1, "complete", 0⟩, ⟨5, 1, "complete", 0⟩,
        ⟨6, 1, "complete", 0⟩, ⟨7, 1, "complete", 0⟩, ⟨8, 1, "skip", 0⟩,
        ⟨9, 1, "skip", 0⟩, ⟨10, 1, "skip", 0⟩], [], 11⟩ : DB).habit_logs.filter
          (fun e => e.event_type == "skip"
            && (0 : Int) - 29 ≤ day_of e.timestamp)).length = 3 := by decide
    rw [completion_rate_30d, hc, hs]
    norm_num [round1, qRoundHalfEven]

/-- Closed instance of `completion_rate_30d_spec`: the 7-complete /
3-skip state evaluates to 70 and the empty state to 0. -/
theorem completion_rate_30d_spec_witness :
    completion_rate_30d ⟨[⟨1, 1, "complete", 0⟩, ⟨2, 1, "complete", 0⟩,
        ⟨3, 1, "complete", 0⟩, ⟨4, 1, "complete", 0⟩, ⟨5, 1, "complete", 0⟩,
        ⟨6, 1, "complete", 0⟩, ⟨7, 1, "complete", 0⟩, ⟨8, 1, "skip", 0⟩,
        ⟨9, 1, "skip", 0⟩, ⟨10, 1, "skip", 0⟩], [], 11⟩ 0 = 70
    ∧ completion_rate_30d emptyDB 0 = 0 := by
  have hmain := completion_rate_30d_spec ⟨[⟨1, 1, "complete", 0⟩, ⟨2, 1, "complete", 0⟩,
    ⟨3, 1, "complete", 0⟩, ⟨4, 1, "complete", 0⟩, ⟨5, 1, "complete", 0⟩,
    ⟨6, 1, "complete", 0⟩, ⟨7, 1, "complete", 0⟩, ⟨8, 1, "skip", 0⟩,
    ⟨9, 1, "skip", 0⟩, ⟨10, 1, "skip", 0⟩], [], 11⟩ 0 (by decide)
  exact ⟨hmain.2.1, hmain.2.2⟩

/-! ### The latest-status query -/

/-- Counterexample to the claimed tie-break of C8: two events of habit 1
on the same day carry the identical timestamp 100; the later-inserted
one (id 2) has event type `"skip"`, yet the query returns
`"complete"` — the type of the earlier-inserted event (id 1).  The
source orders by timestamp only; with no timestamp index the scan order
(rowid) is preserved by the stable sort, so the smaller id wins the
tie. -/
theorem latest_status_tie_counterexample :
    latest_status ⟨[⟨1, 1, "complete", 100⟩, ⟨2, 1, "skip", 100⟩], [], 3⟩ 1 (day_of 100)
        = "complete"
    ∧ ("complete" : String) ≠ "skip" := by decide

/-- C8 amended: `latest_status` returns the event type of a
most-recently-timestamped event of the habit on the day, or `"none"`
when no such event exists; when several events carry the identical
maximal timestamp, the one with the smallest identifier (inserted
first) is returned, not the largest. -/
theorem latest_status_spec (db : DB) (h : Nat) (today : Int)
    (hids : db.habit_logs.Pairwise (fun a b => a.id < b.id)) :
    (db.habit_logs.filter (fun ev => ev.habit_id == h && day_of ev.timestamp == today) = []
      → latest_status db h today = "none")
    ∧ (db.habit_logs.filter (fun ev => ev.habit_id == h && day_of ev.timestamp == today) ≠ []
      → ∃ e ∈ db.habit_logs.filter
          (fun ev => ev.habit_id == h && day_of ev.timestamp == today),
          latest_status db h today = e.event_type
          ∧ (∀ x ∈ db.habit_logs.filter
              (fun ev => ev.habit_id == h && day_of ev.timestamp == today),
              x.timestamp ≤ e.timestamp)
          ∧ (∀ x ∈ db.habit_logs.filter
              (fun ev => ev.habit_id == h && day_of ev.timestamp == today),
              x.timestamp = e.timestamp → e.id ≤ x.id)) := by
  constructor
  · intro hnil
    rw [latest_status, hnil]
    rfl
  · intro hne
    cases hq : latestIn (db.habit_logs.filter
        (fun ev => ev.habit_id == h && day_of ev.timestamp == today)) with
    | none => exact absurd (latestIn_eq_none.mp hq) hne
    | some e =>
      have hmem := latestIn_mem hq
      have hmax := latestIn_max hq
      obtain ⟨s, t, hl, hs⟩ := latestIn_decomp hq
      have hpair : (db.habit_logs.filter
          (fun ev => ev.habit_id == h && day_of ev.timestamp == today)).Pairwise
            (fun a b => a.id < b.id) :=
        List.Pairwise.sublist (List.filter_sublist _) hids
      refine ⟨e, hmem, ?_, hmax, ?_⟩
      · rw [latest_status, hq]
      · intro x hx hts
        rw [hl] at hx hpair
        rcases List.mem_append.mp hx with hxs | hxet
        · exact absurd hts (ne_of_lt (hs x hxs))
        · rcases List.mem_cons.mp hxet with rfl | hxt
          · exact le_refl _
          · exact le_of_lt
              ((List.pairwise_cons.mp (List.pairwise_append.mp hpair).2.1).1 x hxt)

/-- Closed instance of `latest_status_spec`: the empty state reports the
`"none"` sentinel. -/
theorem latest_status_spec_witness : latest_status emptyDB 1 0 = "none" :=
  (latest_status_spec emptyDB 1 0 List.Pairwise.nil).1 rfl

/-! ### The record / undo round trip -/

theorem latestIn_append_strict {l : List Event} {e : Event}
    (hlt : ∀ x ∈ l, x.timestamp < e.timestamp) :
    latestIn (l ++ [e]) = some e := by
  induction l with
  | nil => rfl
  | cons a rest ih =>
    have ih' := ih (fun x hx => hlt x (List.mem_cons_of_mem a hx))
    show latestIn (a :: (rest ++ [e])) = some e
    simp only [latestIn, ih']
    rw [if_pos (hlt a (List.mem_cons_self a rest))]

/-- Counterexample to C9 as stated: starting from the fresh database,
`record(habit 1, complete)` immediately followed by
`undo(habit 1, window 60)` does not restore `daily_agg` exactly — the
record call created the day's bucket row, and undo decrements but never
deletes it, so a (1, day, 0, 0) row survives that was absent before. -/
theorem record_undo_roundtrip_counterexample :
    (undo_last_event (log_event emptyDB 1 "complete" 100).1 1 60 100).1.daily_agg
      ≠ emptyDB.daily_agg := by decide

/-- C9 amended: from any well-formed state whose habit-1 events are all
strictly older than the call time, `record(habit 1, complete)`
immediately followed by `undo(habit 1, window 60)` reverses exactly the
event just recorded (the same identity), restores the event log
exactly, and restores every `daily_agg` counter to its pre-record
value; only the bucket row itself may survive with zero counts where it
was absent before (rows are never deleted). -/
theorem record_then_undo_roundtrip (db : DB) (now : Nat)
    (hwf : WFids db)
    (hnn : ∀ b ∈ db.daily_agg, 0 ≤ b.completions)
    (hfresh : ∀ e ∈ db.habit_logs, e.habit_id = 1 → e.timestamp < now) :
    (undo_last_event (log_event db 1 "complete" now).1 1 60 now).2
        = some (log_event db 1 "complete" now).2
    ∧ (undo_last_event (log_event db 1 "complete" now).1 1 60 now).1.habit_logs
        = db.habit_logs
    ∧ (∀ (h' : Nat) (d' : Int),
        getCompletions (undo_last_event (log_event db 1 "complete" now).1 1 60 now).1 h' d'
          = getCompletions db h' d'
        ∧ getSkips (undo_last_event (log_event db 1 "complete" now).1 1 60 now).1 h' d'
          = getSkips db h' d') := by
  have hcand : undoCandidates (log_event db 1 "complete" now).1 1 60 now
      = db.habit_logs.filter (fun ev => ev.habit_id == 1 && now - 60 ≤ ev.timestamp)
        ++ [⟨db.next_id, 1, "complete", now⟩] := by
    rw [undoCandidates]
    show (db.habit_logs ++ [(⟨db.next_id, 1, "complete", now⟩ : Event)]).filter _ = _
    rw [List.filter_append]
    congr 1
    simp [Nat.sub_le]
  have hsel : latestIn (undoCandidates (log_event db 1 "complete" now).1 1 60 now)
      = some ⟨db.next_id, 1, "complete", now⟩ := by
    rw [hcand]
    refine latestIn_append_strict (fun x hx => ?_)
    have hx' := List.mem_filter.mp hx
    have hh : x.habit_id = 1 := by
      have := hx'.2
      simp only [Bool.and_eq_true, beq_iff_eq] at this
      exact this.1
    exact hfresh x hx'.1 hh
  refine ⟨?_, ?_, ?_⟩
  · rw [undo_last_event, hsel]
    rfl
  · rw [undo_last_event, hsel]
    show ((db.habit_logs ++ [(⟨db.next_id, 1, "complete", now⟩ : Event)]).filter
        (fun x => !(x.id == db.next_id))) = db.habit_logs
    rw [List.filter_append]
    have h1 : db.habit_logs.filter (fun x => !(x.id == db.next_id)) = db.habit_logs := by
      rw [List.filter_eq_self]
      intro x hx
      simpa using Nat.ne_of_lt (hwf.2 x hx)
    have h2 : ([(⟨db.next_id, 1, "complete", now⟩ : Event)]).filter
        (fun x => !(x.id == db.next_id)) = [] := by simp
    rw [h1, h2, List.append_nil]
  · intro h' d'
    have hagg : (undo_last_event (log_event db 1 "complete" now).1 1 60 now).1.daily_agg
        = bumpDown (log_event db 1 "complete" now).1.daily_agg 1 (day_of now) "complete" := by
      rw [undo_last_event, hsel]
    by_cases hkey : h' = 1 ∧ d' = day_of now
    · rcases hkey with ⟨rfl, rfl⟩
      constructor
      · simp only [getCompletions, bucketFor]
        rw [hagg, map_getD_bumpDown_compl, if_pos rfl]
        have hc1 := getCompletions_log_event db 1 "complete" now
        rw [if_pos rfl] at hc1
        simp only [getCompletions, bucketFor] at hc1
        rw [hc1]
        have hge : (0 : Int) ≤ (Option.map Bucket.completions
            (List.find? (keyMatch 1 (day_of now)) db.daily_agg)).getD 0 := by
          cases hb : List.find? (keyMatch 1 (day_of now)) db.daily_agg with
          | none => simp
          | some c =>
            have := hnn c (List.mem_of_find?_eq_some hb)
            simpa using this
        rw [clampDec, if_pos (by omega)]
        omega
      · simp only [getSkips, bucketFor]
        rw [hagg, map_getD_bumpDown_skips,
          if_neg (by decide : ¬("complete" : String) = "skip")]
        have hs1 := getSkips_log_event db 1 "complete" now
        rw [if_neg (by decide : ¬("complete" : String) = "skip"), add_zero] at hs1
        simp only [getSkips, bucketFor] at hs1
        exact hs1
    · have hframe : bucketFor (undo_last_event (log_event db 1 "complete" now).1 1 60 now).1
          h' d' = bucketFor db h' d' := by
        rw [bucketFor, hagg, find?_bumpDown_other _ 1 (day_of now) "complete" hkey]
        exact bucketFor_log_event_other db 1 "complete" now hkey
      exact ⟨by simp only [getCompletions]; rw [hframe],
        by simp only [getSkips]; rw [hframe]⟩

/-- Closed instance of `record_then_undo_roundtrip` on the fresh
database: undo reverses exactly the event just recorded and the event
log returns to empty. -/
theorem record_then_undo_roundtrip_witness :
    (undo_last_event (log_event emptyDB 1 "complete" 100).1 1 60 100).2
        = some (log_event emptyDB 1 "complete" 100).2
    ∧ (undo_last_event (log_event emptyDB 1 "complete" 100).1 1 60 100).1.habit_logs
        = emptyDB.habit_logs := by
  have hmain := record_then_undo_roundtrip emptyDB 100
    ⟨List.Pairwise.nil, fun e he => by simp [emptyDB] at he⟩
    (fun b hb => by simp [emptyDB] at hb)
    (fun e he => by simp [emptyDB] at he)
  exact ⟨hmain.1, hmain.2.1⟩

end HabitVeritas
